import Mathlib

/-! # goimgrz: the task orchestrator (`task.go`)

A shallow embedding of `Task` and its operations.

* Go `error` values are `GoError := Option String`; `none` is `nil`.
* `uint` / `int` fields are only stored and copied, never computed with, so they are
  `Nat` / `Int`.
* The collaborators that are not defined in `task.go` (the two `Filter` checks, the
  `ResizeTo` method of an image, `GetImagesFromDir`) are the fields of `Env`.
* A blocking send on `chErr` during admission is recorded in the list of sent values that
  every admission operation returns next to the task.
* `Run` and `Report` are goroutines over unbuffered channels: they are a step function
  `step` on `RunState`, one step of one goroutine per `Action`. The goroutine that calls
  `Run` first makes the sends of the admission calls, on the same `chErr` that `Report`
  drains, so what admission sends reaches the reporter's log as well.
-/

namespace Goimgrz

/-- Go `error`: `none` is the nil error. -/
abbrev GoError := Option String

/-- The two image values `task.go` builds: `&LocImage{img}` and `&HttpImage{url}`. -/
inductive Image where
  | LocImage (path : String)
  | HttpImage (url : String)
  deriving DecidableEq, Repr

/-- The struct `saveRs`: save resize result. -/
structure saveRs where
  save : String
  w : Nat
  h : Nat
  deriving DecidableEq, Repr

/-- The collaborators `task.go` calls but does not define. `F` is the `Filter` struct; the
receiver of the two checks is the task's `*Filter`, which may be nil (`none`). -/
structure Env (F : Type) where
  /-- method `(*Filter).DetectName(image) (bool, error)` -/
  DetectName : Option F → Image → Bool × GoError
  /-- method `(*Filter).DetectSize(image) (bool, error)` -/
  DetectSize : Option F → Image → Bool × GoError
  /-- method `Image.ResizeTo(dst, width, height, interp, quality) (string, error)` -/
  ResizeTo : Image → String → Nat → Nat → Nat → Int → String × GoError
  /-- function `GetImagesFromDir(dir) ([]string, error)` -/
  GetImagesFromDir : String → List String × GoError

/-- The struct `Task` without its three channels, which live in `RunState`. -/
structure Task (F : Type) where
  filter : Option F
  images : List Image
  dst : String
  width : Nat
  height : Nat
  interp : Nat
  quality : Int
  verbose : Bool

variable {F : Type}

/-- Constructor `NewTask(dst, w, h, interp)`: every field not listed is the zero value. -/
def NewTask (dst : String) (w h interp : Nat) : Task F :=
  { filter := none, images := [], dst := dst, width := w, height := h, interp := interp,
    quality := 0, verbose := false }

/-- Method `SetVerbose(v)` -/
def Task.SetVerbose (gt : Task F) (v : Bool) : Task F :=
  { gt with verbose := v }

/-- Method `SetFilter(f)` -/
def Task.SetFilter (gt : Task F) (f : Option F) : Task F :=
  { gt with filter := f }

/-- Method `Filter(image) error` -/
def Task.Filter (E : Env F) (gt : Task F) (image : Image) : GoError :=
  match E.DetectName gt.filter image with
  | (false, err) => err
  | (true, _) =>
    match E.DetectSize gt.filter image with
    | (false, err) => err
    | (true, _) => none

/-- Method `Add(image)`: the task afterwards and the values sent on `chErr`. -/
def Task.Add (E : Env F) (gt : Task F) (image : Image) : Task F × List GoError :=
  match E.DetectName gt.filter image with
  | (false, err) => (gt, if gt.verbose then [err] else [])
  | (true, _) =>
    match E.DetectSize gt.filter image with
    | (false, err) => (gt, if gt.verbose then [err] else [])
    | (true, _) => ({ gt with images := gt.images ++ [image] }, [])

/-- Method `AddImg(img)` -/
def Task.AddImg (gt : Task F) (img : String) : Task F × List GoError :=
  ({ gt with images := gt.images ++ [Image.LocImage img] }, [])

/-- Method `AddUrl(url)` -/
def Task.AddUrl (gt : Task F) (url : String) : Task F × List GoError :=
  ({ gt with images := gt.images ++ [Image.HttpImage url] }, [])

/-- One round of a `for ... range` loop whose body is `gt.Add(image)`. -/
def addNext (E : Env F) (acc : Task F × List GoError) (image : Image) :
    Task F × List GoError :=
  ((Task.Add E acc.1 image).1, acc.2 ++ (Task.Add E acc.1 image).2)

/-- The loop `for _, x := range xs { gt.Add(x) }`. -/
def addAll (E : Env F) (gt : Task F) (xs : List Image) : Task F × List GoError :=
  xs.foldl (addNext E) (gt, [])

/-- Go's `strings.Split(s, sep)` for a separator of one character, on the characters of
`s`: the fields between the separators, in order; an empty input has one empty field. -/
def splitChars (sep : Char) : List Char → List (List Char)
  | [] => [[]]
  | c :: cs =>
    if c = sep then [] :: splitChars sep cs
    else
      match splitChars sep cs with
      | [] => [[c]]
      | f :: fs => (c :: f) :: fs

/-- Go's `strings.Split(s, ",")`. -/
def splitComma (s : String) : List String :=
  (splitChars ',' s.data).map String.mk

/-- Method `AddImgs(imgs)` -/
def Task.AddImgs (E : Env F) (gt : Task F) (imgs : String) : Task F × List GoError :=
  addAll E gt ((splitComma imgs).map Image.LocImage)

/-- Method `AddUrls(urls)` -/
def Task.AddUrls (E : Env F) (gt : Task F) (urls : String) : Task F × List GoError :=
  addAll E gt ((splitComma urls).map Image.HttpImage)

/-- Method `AddScanDir(dir)` -/
def Task.AddScanDir (E : Env F) (gt : Task F) (dir : String) : Task F × List GoError :=
  match E.GetImagesFromDir dir with
  | (_, some err) => (gt, [some err])
  | (imgs, none) => addAll E gt (imgs.map Image.LocImage)

/-- Method `EmptyTask()` -/
def Task.EmptyTask (gt : Task F) : Bool :=
  gt.images.length == 0

/-! ## `Run` and `Report`: goroutines and unbuffered channels -/

/-- A line the reporter writes: `resize ok: save (inputW=w,inputH=h)` or
`resize fail: err`. -/
inductive LogLine where
  | ok (rs : saveRs)
  | fail (err : GoError)
  deriving DecidableEq, Repr

/-- Where a worker goroutine `doResize(img)` stands. -/
inductive WorkerPc where
  /-- started, `img.ResizeTo(...)` is next -/
  | resize
  /-- blocked in `gt.chErr <- err` -/
  | sendErr (err : GoError)
  /-- blocked in `gt.chSave <- saveRs{save, gt.width, gt.height}` -/
  | sendSave (rs : saveRs)
  /-- returning: the deferred `wg.Done()` is next -/
  | exiting
  /-- goroutine finished -/
  | done
  deriving DecidableEq, Repr

/-- Where one of the two `for v := range ch` goroutines of `Report` stands. -/
inductive LoopPc (α : Type) where
  /-- goroutine not started -/
  | idle
  /-- waiting in `range ch` for a value or for the close -/
  | recv
  /-- received `v`, the log call is next -/
  | got (v : α)
  /-- the channel was seen closed, the loop left and the deferred `wg.Done()` ran -/
  | exited
  deriving DecidableEq, Repr

/-- Where the goroutine that called `Run` stands. -/
inductive MainPc where
  /-- in the admission calls made before `Run`, with the values `rest` still to be sent on
  `chErr`, the first of them next; with none left, the call of `Run` is next -/
  | admitting (rest : List GoError)
  /-- in `for _, img := range gt.images` at index `i` -/
  | dispatch (i : Nat)
  /-- at `wg.Wait()` -/
  | wait
  /-- at `close(gt.chErr)` -/
  | closeErr
  /-- at `close(gt.chSave)` -/
  | closeSave
  /-- blocked in `<-gt.fin` -/
  | recvFin
  /-- the call of `Run` has returned -/
  | returned
  deriving DecidableEq, Repr

/-- Where the goroutine that called `Report` stands (`absent`: nobody called it). -/
inductive ReportPc where
  | absent
  /-- at the first `wg.Add(1); go func() {...}()` (the `chSave` loop) -/
  | spawnSave
  /-- at the second `wg.Add(1); go func() {...}()` (the `chErr` loop) -/
  | spawnErr
  /-- at `wg.Wait()` -/
  | wait
  /-- blocked in `gt.fin <- struct{}{}` -/
  | sendFin
  | done
  deriving DecidableEq, Repr

/-- The goroutines of one `Run`, the state of the channels and the log written so far. -/
structure RunState where
  main : MainPc
  /-- counter of the `sync.WaitGroup` of `Run` -/
  wg : Nat
  /-- the `doResize(img)` goroutines, in the order they were started -/
  workers : List (Image × WorkerPc)
  chErrClosed : Bool
  chSaveClosed : Bool
  report : ReportPc
  /-- counter of the `sync.WaitGroup` of `Report` -/
  rwg : Nat
  saveLoop : LoopPc saveRs
  errLoop : LoopPc GoError
  log : List LogLine
  /-- a goroutine panicked (send on a closed channel, negative WaitGroup counter) -/
  panicked : Bool
  deriving DecidableEq, Repr

/-- The goroutine the scheduler runs next. -/
inductive Action where
  | main
  | worker (i : Nat)
  | saveLoop
  | errLoop
  | report
  deriving DecidableEq, Repr

/-- The state of a program `gt := NewTask(...); go gt.Report(); <admission calls>;
gt.Run()` right after the task is made. `reporter` says whether `go gt.Report()` is done
(it is done first: a send of an admission call made before it would block for ever); `sent`
are the values the admission calls send on `chErr`, in order. -/
def startProgram (reporter : Bool) (sent : List GoError) : RunState :=
  { main := .admitting sent, wg := 0, workers := [], chErrClosed := false,
    chSaveClosed := false, report := if reporter then .spawnSave else .absent, rwg := 0,
    saveLoop := .idle, errLoop := .idle, log := [], panicked := false }

/-- One step of the goroutine that makes the admission calls and then calls `Run`. A send
`gt.chErr <- err` of an admission call needs the `chErr` loop of the reporter to be
waiting in its `range`; the value is handed over in the same step. -/
def stepMain (gt : Task F) (s : RunState) : Option RunState :=
  match s.main with
  | .admitting (err :: rest) =>
    if s.chErrClosed then some { s with panicked := true }
    else
      match s.errLoop with
      | .recv => some { s with main := .admitting rest, errLoop := .got err }
      | _ => none
  | .admitting [] => some { s with main := .dispatch 0 }
  | .dispatch i =>
    match gt.images[i]? with
    | some img =>
      some { s with main := .dispatch (i + 1), wg := s.wg + 1,
                    workers := s.workers ++ [(img, WorkerPc.resize)] }
    | none => some { s with main := .wait }
  | .wait => if s.wg = 0 then some { s with main := .closeErr } else none
  | .closeErr =>
    if s.chErrClosed then some { s with panicked := true }
    else some { s with main := .closeSave, chErrClosed := true }
  | .closeSave =>
    if s.chSaveClosed then some { s with panicked := true }
    else some { s with main := .recvFin, chSaveClosed := true }
  | .recvFin => none
  | .returned => none

/-- One step of the `i`-th `doResize` goroutine. A send needs the receiving loop to be
waiting in its `range`; the value is handed over in the same step. -/
def stepWorker (E : Env F) (gt : Task F) (i : Nat) (s : RunState) : Option RunState :=
  match s.workers[i]? with
  | none => none
  | some (img, pc) =>
    match pc with
    | .resize =>
      match E.ResizeTo img gt.dst gt.width gt.height gt.interp gt.quality with
      | (_, some err) =>
        some { s with workers := s.workers.set i (img, WorkerPc.sendErr (some err)) }
      | (save, none) =>
        some { s with workers :=
          s.workers.set i (img, WorkerPc.sendSave ⟨save, gt.width, gt.height⟩) }
    | .sendErr err =>
      if s.chErrClosed then some { s with panicked := true }
      else
        match s.errLoop with
        | .recv =>
          some { s with workers := s.workers.set i (img, WorkerPc.exiting),
                        errLoop := .got err }
        | _ => none
    | .sendSave rs =>
      if s.chSaveClosed then some { s with panicked := true }
      else
        match s.saveLoop with
        | .recv =>
          some { s with workers := s.workers.set i (img, WorkerPc.exiting),
                        saveLoop := .got rs }
        | _ => none
    | .exiting =>
      if s.wg = 0 then some { s with panicked := true }
      else some { s with wg := s.wg - 1, workers := s.workers.set i (img, WorkerPc.done) }
    | .done => none

/-- One step of `for rs := range gt.chSave { log.Printf(...) }`. -/
def stepSaveLoop (s : RunState) : Option RunState :=
  match s.saveLoop with
  | .idle => none
  | .recv =>
    if s.chSaveClosed then
      if s.rwg = 0 then some { s with panicked := true }
      else some { s with saveLoop := .exited, rwg := s.rwg - 1 }
    else none
  | .got rs => some { s with saveLoop := .recv, log := s.log ++ [LogLine.ok rs] }
  | .exited => none

/-- One step of `for err := range gt.chErr { log.Println(...) }`. -/
def stepErrLoop (s : RunState) : Option RunState :=
  match s.errLoop with
  | .idle => none
  | .recv =>
    if s.chErrClosed then
      if s.rwg = 0 then some { s with panicked := true }
      else some { s with errLoop := .exited, rwg := s.rwg - 1 }
    else none
  | .got err => some { s with errLoop := .recv, log := s.log ++ [LogLine.fail err] }
  | .exited => none

/-- One step of the goroutine `Report` is executing in. Its send on `fin` needs `Run` to
be blocked in `<-gt.fin`, and lets `Run` return in the same step. -/
def stepReport (s : RunState) : Option RunState :=
  match s.report with
  | .absent => none
  | .spawnSave => some { s with report := .spawnErr, rwg := s.rwg + 1, saveLoop := .recv }
  | .spawnErr => some { s with report := .wait, rwg := s.rwg + 1, errLoop := .recv }
  | .wait => if s.rwg = 0 then some { s with report := .sendFin } else none
  | .sendFin =>
    match s.main with
    | .recvFin => some { s with report := .done, main := .returned }
    | _ => none
  | .done => none

/-- One step of the chosen goroutine; `none` when it is blocked or finished, or when the
program has panicked. -/
def step (E : Env F) (gt : Task F) (a : Action) (s : RunState) : Option RunState :=
  if s.panicked then none
  else
    match a with
    | .main => stepMain gt s
    | .worker i => stepWorker E gt i s
    | .saveLoop => stepSaveLoop s
    | .errLoop => stepErrLoop s
    | .report => stepReport s

/-- Run a schedule: a goroutine that cannot move when it is chosen is passed over. -/
def exec (E : Env F) (gt : Task F) : List Action → RunState → RunState
  | [], s => s
  | a :: as, s => exec E gt as ((step E gt a s).getD s)

/-- The number of actions of a schedule that moved a goroutine. -/
def stepsTaken (E : Env F) (gt : Task F) : List Action → RunState → Nat
  | [], _ => 0
  | a :: as, s =>
    match step E gt a s with
    | some s' => stepsTaken E gt as s' + 1
    | none => stepsTaken E gt as s

/-- The single event `doResize(img)` sends: the failure carrying the error of `ResizeTo`
when there is one, else the success with the returned path and the task's width and
height. -/
def outcome (E : Env F) (gt : Task F) (img : Image) : LogLine :=
  match E.ResizeTo img gt.dst gt.width gt.height gt.interp gt.quality with
  | (_, some err) => LogLine.fail (some err)
  | (save, none) => LogLine.ok ⟨save, gt.width, gt.height⟩

/-! ## Example collaborators, for concrete instances -/

/-- Both checks accept the image. -/
def accepts (E : Env F) (f : Option F) (image : Image) : Bool :=
  (E.DetectName f image).1 && (E.DetectSize f image).1

/-- The path or url of an image. -/
def imageName : Image → String
  | .LocImage path => path
  | .HttpImage url => url

/-- Whether `pat` occurs in the text. -/
def hasSub (pat : List Char) : List Char → Bool
  | [] => pat.isEmpty
  | c :: cs => pat.isPrefixOf (c :: cs) || hasSub pat cs

/-- Example collaborators. The filter is a text; the name check rejects an image whose
name contains it, the size check rejects every remote image, `ResizeTo` succeeds on local
images and fails on remote ones, and the scan of the directory `""` fails. -/
def skipEnv : Env String where
  DetectName := fun f img =>
    match f with
    | none => (true, none)
    | some pat =>
      if hasSub pat.data (imageName img).data then (false, some "name excluded")
      else (true, none)
  DetectSize := fun _ img =>
    match img with
    | .HttpImage _ => (false, some "size excluded")
    | .LocImage _ => (true, none)
  ResizeTo := fun img dst _ _ _ _ =>
    match img with
    | .LocImage path => (dst ++ "/" ++ path, none)
    | .HttpImage _ => ("", some "fetch failed")
  GetImagesFromDir := fun dir =>
    if dir = "" then ([], some "no such directory")
    else ([dir ++ "/skip.png", dir ++ "/b.png"], none)

/-- Example collaborators whose name check rejects every image with a nil error. -/
def silentEnv : Env Unit where
  DetectName := fun _ _ => (false, none)
  DetectSize := fun _ _ => (true, none)
  ResizeTo := fun _ _ _ _ _ _ => ("", none)
  GetImagesFromDir := fun _ => ([], none)

/-- A task with the filter `"skip"`. -/
def skipTask : Task String :=
  (NewTask "out" 400 0 0).SetFilter (some "skip")

/-- A task with a filter set, for the collaborators whose filter carries no data. -/
def unitTask : Task Unit :=
  (NewTask "out" 400 0 0).SetFilter (some ())

/-- The task of the repository's test: three remote images added with `AddUrl`, then one
local image added with `AddImg`; no filter is set. -/
def testTask : Task String :=
  (Task.AddImg (Task.AddUrl (Task.AddUrl (Task.AddUrl (NewTask "tmp/goimgrz" 400 0 0)
    "https://cdn/a.png").1 "https://cdn/b.jpg").1 "https://cdn/c.gif").1
    "./testdata/IMG_2489.JPG").1

/-- A schedule for `testTask`: `Run` is called, starts the four workers and reaches
`wg.Wait()`, and every worker calls `ResizeTo`. -/
def testSchedule : List Action :=
  [.main, .main, .main, .main, .main, .main, .worker 0, .worker 1, .worker 2, .worker 3]

/-- Example collaborators whose checks accept every image and whose `ResizeTo` always
succeeds. -/
def openEnv : Env Unit where
  DetectName := fun _ _ => (true, none)
  DetectSize := fun _ _ => (true, none)
  ResizeTo := fun img dst _ _ _ _ => (dst ++ "/" ++ imageName img, none)
  GetImagesFromDir := fun _ => ([], none)

/-- A schedule for the task with one local image and then one remote image: it takes the
client through the call of `Run` and a whole run when a reporter is there and admission
sends nothing. -/
def mixedSchedule : List Action :=
  [.main, .main, .main, .main, .report, .report, .worker 0, .worker 1, .worker 0, .worker 1,
   .saveLoop, .errLoop, .worker 0, .worker 1, .main, .main, .main, .saveLoop, .errLoop,
   .report, .report]

/-! ## Invariants of a run -/

/-- Counts a worker that has not yet called `wg.Done()`. -/
def pending : Image × WorkerPc → Nat
  | (_, .done) => 0
  | _ => 1

/-- The event a worker has handed over to the reporter, once its send is done. -/
def delivered (E : Env F) (gt : Task F) : Image × WorkerPc → Option LogLine
  | (img, .exiting) => some (outcome E gt img)
  | (img, .done) => some (outcome E gt img)
  | _ => none

/-- The events the two loops of the reporter have received and not yet logged. -/
def inHand (s : RunState) : List LogLine :=
  (match s.saveLoop with
   | .got rs => [LogLine.ok rs]
   | _ => []) ++
  (match s.errLoop with
   | .got err => [LogLine.fail err]
   | _ => [])

/-- Counts a loop that was started and has not yet called `wg.Done()`. -/
def loopOpen {α : Type} : LoopPc α → Nat
  | .recv => 1
  | .got _ => 1
  | _ => 0

/-- A worker blocked in a send is sending the outcome of its image. -/
def sendsOutcome (E : Env F) (gt : Task F) : Image × WorkerPc → Prop
  | (img, .sendErr err) => LogLine.fail err = outcome E gt img
  | (img, .sendSave rs) => LogLine.ok rs = outcome E gt img
  | _ => True

/-- The values the admission calls have still to send on `chErr`. -/
def owed (s : RunState) : List GoError :=
  match s.main with
  | .admitting rest => rest
  | _ => []

/-- What the position of `Run` says about the workers, the counter and the channels. -/
def mainInv (gt : Task F) (s : RunState) : Prop :=
  match s.main with
  | .admitting _ =>
    s.workers = [] ∧ s.wg = 0 ∧ s.chErrClosed = false ∧ s.chSaveClosed = false
  | .dispatch i =>
    i = s.workers.length ∧ i ≤ gt.images.length ∧
      s.chErrClosed = false ∧ s.chSaveClosed = false
  | .wait =>
    s.workers.length = gt.images.length ∧ s.chErrClosed = false ∧ s.chSaveClosed = false
  | .closeErr =>
    s.workers.length = gt.images.length ∧ s.wg = 0 ∧
      s.chErrClosed = false ∧ s.chSaveClosed = false
  | .closeSave =>
    s.workers.length = gt.images.length ∧ s.wg = 0 ∧
      s.chErrClosed = true ∧ s.chSaveClosed = false
  | .recvFin =>
    s.workers.length = gt.images.length ∧ s.wg = 0 ∧
      s.chErrClosed = true ∧ s.chSaveClosed = true ∧ s.report ≠ .done
  | .returned =>
    s.workers.length = gt.images.length ∧ s.wg = 0 ∧
      s.chErrClosed = true ∧ s.chSaveClosed = true ∧ s.report = .done

/-- What the position of `Report` says about its two loops and its counter. -/
def reportInv (s : RunState) : Prop :=
  match s.report with
  | .absent => s.saveLoop = .idle ∧ s.errLoop = .idle ∧ s.rwg = 0
  | .spawnSave => s.saveLoop = .idle ∧ s.errLoop = .idle ∧ s.rwg = 0
  | .spawnErr => s.saveLoop ≠ .idle ∧ s.errLoop = .idle ∧ s.rwg = loopOpen s.saveLoop
  | .wait =>
    s.saveLoop ≠ .idle ∧ s.errLoop ≠ .idle ∧
      s.rwg = loopOpen s.saveLoop + loopOpen s.errLoop
  | .sendFin =>
    s.saveLoop = .exited ∧ s.errLoop = .exited ∧ s.rwg = 0 ∧ s.main ≠ .returned
  | .done => s.saveLoop = .exited ∧ s.errLoop = .exited ∧ s.rwg = 0 ∧ s.main = .returned

/-- The invariant of a program that admits into the task `gt`, sending `sent` on `chErr`
on the way, and then runs it. -/
structure Inv (E : Env F) (gt : Task F) (sent : List GoError) (s : RunState) : Prop where
  notPanicked : s.panicked = false
  images : s.workers.map Prod.fst = gt.images.take s.workers.length
  counter : s.wg = (s.workers.map pending).sum
  sends : ∀ w ∈ s.workers, sendsOutcome E gt w
  main : mainInv gt s
  report : reportInv s
  saveExit : s.saveLoop = .exited → s.chSaveClosed = true
  errExit : s.errLoop = .exited → s.chErrClosed = true
  log : (s.log ++ inHand s ++ (owed s).map LogLine.fail).Perm
    (sent.map LogLine.fail ++ s.workers.filterMap (delivered E gt))

/-- Steps a worker still has to make, weighted. -/
def workerRank : Image × WorkerPc → Nat
  | (_, .resize) => 4
  | (_, .sendErr _) => 3
  | (_, .sendSave _) => 3
  | (_, .exiting) => 1
  | (_, .done) => 0

/-- Steps `Run` still has to make, weighted, for a task of `n` images. -/
def mainRank (n : Nat) : MainPc → Nat
  | .admitting rest => 5 * n + 6 + 2 * rest.length
  | .dispatch i => 5 * (n - i) + 5
  | .wait => 4
  | .closeErr => 3
  | .closeSave => 2
  | .recvFin => 1
  | .returned => 0

/-- Weight of a loop of the reporter. -/
def loopRank {α : Type} : LoopPc α → Nat
  | .idle => 2
  | .recv => 1
  | .got _ => 2
  | .exited => 0

/-- Steps `Report` still has to make, weighted. -/
def reportRank : ReportPc → Nat
  | .absent => 0
  | .spawnSave => 6
  | .spawnErr => 4
  | .wait => 2
  | .sendFin => 1
  | .done => 0

/-- A bound on the number of steps that can still be taken from a state: every step
makes it smaller. -/
def fuel (gt : Task F) (s : RunState) : Nat :=
  mainRank gt.images.length s.main + (s.workers.map workerRank).sum +
    loopRank s.saveLoop + loopRank s.errLoop + reportRank s.report +
    (if s.panicked then 0 else 1)

/-! ## Building a task -/

/-- A call a client can make on a task before `Run`. -/
inductive Op (F : Type) where
  | SetVerbose (v : Bool)
  | SetFilter (f : Option F)
  | Add (image : Image)
  | AddImg (img : String)
  | AddImgs (imgs : String)
  | AddUrl (url : String)
  | AddUrls (urls : String)
  | AddScanDir (dir : String)

/-- The task after one call. -/
def Op.run (E : Env F) (gt : Task F) : Op F → Task F
  | .SetVerbose v => gt.SetVerbose v
  | .SetFilter f => gt.SetFilter f
  | .Add image => (Task.Add E gt image).1
  | .AddImg img => (Task.AddImg gt img).1
  | .AddImgs imgs => (Task.AddImgs E gt imgs).1
  | .AddUrl url => (Task.AddUrl gt url).1
  | .AddUrls urls => (Task.AddUrls E gt urls).1
  | .AddScanDir dir => (Task.AddScanDir E gt dir).1

/-- The task `NewTask(dst, w, h, interp)` after a sequence of calls. -/
def build (E : Env F) (dst : String) (w h interp : Nat) (ops : List (Op F)) : Task F :=
  ops.foldl (Op.run E) (NewTask dst w h interp)

/-- The values one call sends on `chErr`. -/
def Op.sends (E : Env F) (gt : Task F) : Op F → List GoError
  | .SetVerbose _ => []
  | .SetFilter _ => []
  | .Add image => (Task.Add E gt image).2
  | .AddImg img => (Task.AddImg gt img).2
  | .AddImgs imgs => (Task.AddImgs E gt imgs).2
  | .AddUrl url => (Task.AddUrl gt url).2
  | .AddUrls urls => (Task.AddUrls E gt urls).2
  | .AddScanDir dir => (Task.AddScanDir E gt dir).2

/-- The values a sequence of calls on the task `gt` sends on `chErr`, in order. -/
def sendsFrom (E : Env F) (gt : Task F) : List (Op F) → List GoError
  | [] => []
  | op :: ops => op.sends E gt ++ sendsFrom E (op.run E gt) ops

/-- The values the calls made on `NewTask(dst, w, h, interp)` send on `chErr`, in order. -/
def buildSends (E : Env F) (dst : String) (w h interp : Nat) (ops : List (Op F)) :
    List GoError :=
  sendsFrom E (NewTask dst w h interp) ops

/-- A client that sets the filter `"skip"` and verbose, then offers two local images. -/
def verboseOps : List (Op String) :=
  [.SetFilter (some "skip"), .SetVerbose true, .Add (.LocImage "skip_me.png"),
   .Add (.LocImage "keep.png")]

/-- The task the calls of `verboseOps` make. -/
def verboseTask : Task String :=
  build skipEnv "out" 400 0 0 verboseOps

/-- The values the calls of `verboseOps` send on `chErr`. -/
def verboseSent : List GoError :=
  buildSends skipEnv "out" 400 0 0 verboseOps

/-- A schedule that takes the program of `verboseOps` through admission and a whole
`Run`. -/
def verboseSchedule : List Action :=
  [.report, .report, .main, .errLoop, .main, .main, .main, .worker 0, .worker 0,
   .saveLoop, .worker 0, .main, .main, .main, .saveLoop, .errLoop, .report, .report]


/-! ## Admission: helper lemmas -/

theorem addAll_append (E : Env F) (gt : Task F) (xs : List Image) (x : Image) :
    addAll E gt (xs ++ [x]) = addNext E (addAll E gt xs) x := by
  simp [addAll, List.foldl_append]

theorem Add_filter (E : Env F) (gt : Task F) (image : Image) :
    (Task.Add E gt image).1.filter = gt.filter := by
  unfold Task.Add
  split
  · rfl
  · split <;> rfl

theorem Add_images (E : Env F) (gt : Task F) (image : Image) :
    (Task.Add E gt image).1.images =
      gt.images ++ (if accepts E gt.filter image then [image] else []) := by
  unfold Task.Add accepts
  split
  · next err h => simp [h]
  · next h =>
    split
    · next err h2 => simp [h, h2]
    · next h2 => simp [h, h2]

theorem Add_rejected (E : Env F) (gt : Task F) (image : Image)
    (h : accepts E gt.filter image = false) : (Task.Add E gt image).1 = gt := by
  unfold accepts at h
  unfold Task.Add
  split
  · rfl
  · next h1 =>
    split
    · rfl
    · next h2 => simp [h1, h2] at h

theorem addAll_filter (E : Env F) (gt : Task F) (xs : List Image) :
    (addAll E gt xs).1.filter = gt.filter := by
  induction xs using List.reverseRecOn with
  | nil => rfl
  | append_singleton xs x ih => rw [addAll_append, addNext]; simp [Add_filter, ih]

theorem addAll_images (E : Env F) (gt : Task F) (xs : List Image) :
    (addAll E gt xs).1.images = gt.images ++ xs.filter (accepts E gt.filter) := by
  induction xs using List.reverseRecOn with
  | nil => simp [addAll]
  | append_singleton xs x ih =>
    rw [addAll_append, addNext]
    simp only [Add_images, ih, addAll_filter, List.filter_append, List.append_assoc]
    by_cases h : accepts E gt.filter x <;> simp [h]

theorem addAll_fst (E : Env F) (gt : Task F) (xs : List Image) :
    (addAll E gt xs).1 = xs.foldl (fun t x => (Task.Add E t x).1) gt := by
  induction xs using List.reverseRecOn with
  | nil => rfl
  | append_singleton xs x ih => rw [addAll_append, addNext]; simp [List.foldl_append, ih]

theorem splitChars_ne_nil (sep : Char) (cs : List Char) : splitChars sep cs ≠ [] := by
  cases cs with
  | nil => simp [splitChars]
  | cons c cs =>
    unfold splitChars
    split
    · simp
    · split <;> simp

theorem splitChars_length (sep : Char) (cs : List Char) :
    (splitChars sep cs).length = cs.count sep + 1 := by
  induction cs with
  | nil => simp [splitChars]
  | cons c cs ih =>
    unfold splitChars
    by_cases h : c = sep
    · simp [h, ih]
    · have hc : (c == sep) = false := by simpa using h
      simp only [h, if_false, List.count_cons, hc]
      split
      · next h0 => exact absurd h0 (splitChars_ne_nil sep cs)
      · next f fs h0 => rw [h0] at ih; simpa using ih

theorem splitChars_intercalate (sep : Char) (cs : List Char) :
    [sep].intercalate (splitChars sep cs) = cs := by
  induction cs with
  | nil => simp [splitChars, List.intercalate]
  | cons c cs ih =>
    unfold splitChars
    by_cases h : c = sep
    · simp only [h, if_true]
      have hne := splitChars_ne_nil sep cs
      cases hs : splitChars sep cs with
      | nil => exact absurd hs hne
      | cons f fs =>
        rw [hs] at ih
        simp only [List.intercalate, List.intersperse, List.flatten] at ih ⊢
        simpa using ih
    · simp only [h, if_false]
      split
      · next h0 => exact absurd h0 (splitChars_ne_nil sep cs)
      · next f fs h0 =>
        rw [h0] at ih
        cases fs with
        | nil => simpa [List.intercalate] using ih
        | cons g gs => simpa [List.intercalate] using ih

theorem splitChars_no_sep (sep : Char) (cs : List Char) :
    ∀ f ∈ splitChars sep cs, sep ∉ f := by
  induction cs with
  | nil => simp [splitChars]
  | cons c cs ih =>
    unfold splitChars
    by_cases h : c = sep
    · simp only [h, if_true]
      intro f hf
      rcases List.mem_cons.1 hf with rfl | hf
      · simp
      · exact ih f hf
    · simp only [h, if_false]
      split
      · next h0 => exact absurd h0 (splitChars_ne_nil sep cs)
      · next f fs h0 =>
        rw [h0] at ih
        intro g hg
        rcases List.mem_cons.1 hg with rfl | hg
        · intro hm
          rcases List.mem_cons.1 hm with rfl | hm
          · exact h rfl
          · exact ih f (List.mem_cons_self _ _) hm
        · exact ih g (List.mem_cons_of_mem _ hg)

/-! ## Runs: helper lemmas on lists of workers -/

theorem sum_map_set {α : Type} (f : α → Nat) (l : List α) (i : Nat) (w w' : α)
    (h : l[i]? = some w) : ((l.set i w').map f).sum + f w = (l.map f).sum + f w' := by
  induction l generalizing i with
  | nil => simp at h
  | cons x xs ih =>
    cases i with
    | zero =>
      simp at h
      subst h
      simp
      omega
    | succ j =>
      simp at h
      have := ih j h
      simp only [List.set_cons_succ, List.map_cons, List.sum_cons]
      omega

theorem filterMap_set_perm {α β : Type} (g : α → Option β) (l : List α) (i : Nat)
    (w w' : α) (h : l[i]? = some w) :
    ((l.set i w').filterMap g ++ (g w).toList).Perm (l.filterMap g ++ (g w').toList) := by
  induction l generalizing i with
  | nil => simp at h
  | cons x xs ih =>
    cases i with
    | zero =>
      simp at h
      subst h
      simp only [List.set_cons_zero, List.filterMap_cons]
      cases hx : g x <;> cases hw : g w' <;>
        simp only [Option.toList, List.append_nil, List.cons_append]
      · exact List.Perm.refl _
      · exact (List.perm_append_singleton _ _).symm
      · exact List.perm_append_singleton _ _
      · exact ((List.perm_append_singleton _ _).cons _).trans
          ((List.Perm.swap _ _ _).trans ((List.perm_append_singleton _ _).symm.cons _))
    | succ j =>
      simp at h
      have := ih j h
      simp only [List.set_cons_succ, List.filterMap_cons]
      cases hx : g x
      · simpa using this
      · simpa using this

theorem map_fst_set {α β : Type} (l : List (α × β)) (i : Nat) (a : α) (b b' : β)
    (h : l[i]? = some (a, b)) : (l.set i (a, b')).map Prod.fst = l.map Prod.fst := by
  induction l generalizing i with
  | nil => simp at h
  | cons x xs ih =>
    cases i with
    | zero =>
      simp at h
      subst h
      simp
    | succ j =>
      simp at h
      simp [ih j h]

theorem exists_pending (l : List (Image × WorkerPc)) (h : (l.map pending).sum ≠ 0) :
    ∃ (i : Nat) (img : Image) (pc : WorkerPc),
      l[i]? = some (img, pc) ∧ pc ≠ WorkerPc.done := by
  induction l with
  | nil => simp at h
  | cons x xs ih =>
    obtain ⟨img, pc⟩ := x
    by_cases hp : pc = WorkerPc.done
    · subst hp
      simp [pending] at h
      obtain ⟨i, img', pc', h1, h2⟩ := ih (by simpa using h)
      exact ⟨i + 1, img', pc', by simpa using h1, h2⟩
    · exact ⟨0, img, pc, by simp, hp⟩

theorem all_done_of_sum (l : List (Image × WorkerPc)) (h : (l.map pending).sum = 0) :
    ∀ w ∈ l, w.2 = WorkerPc.done := by
  intro w hw
  by_contra hne
  have : pending w = 1 := by
    obtain ⟨img, pc⟩ := w
    cases pc <;> simp_all [pending]
  have hle : pending w ≤ (l.map pending).sum :=
    List.single_le_sum (by simp) _ (List.mem_map_of_mem _ hw)
  omega

/-! ## Runs: every step makes the fuel smaller -/

theorem stepMain_fuel (gt : Task F) (s s' : RunState) (hp : s.panicked = false)
    (h : stepMain gt s = some s') : fuel gt s' < fuel gt s := by
  obtain ⟨main, wg, workers, ec, sc, rep, rwg, sl, el, log, pk⟩ := s
  simp only at hp
  subst hp
  unfold stepMain at h
  simp only at h
  split at h
  · split at h
    · cases h; simp [fuel]
    · split at h
      · cases h
        simp [fuel, mainRank, loopRank]
        omega
      · cases h
  · cases h
    simp [fuel, mainRank]
  · next i =>
    split at h
    · next img hi =>
      have hlt : i < gt.images.length := by
        by_contra hge
        simp [List.getElem?_eq_none (Nat.le_of_not_lt hge)] at hi
      cases h
      simp [fuel, mainRank, workerRank]; omega
    · cases h
      simp [fuel, mainRank]
  · split at h
    · cases h; simp [fuel, mainRank]
    · cases h
  · split at h
    · cases h; simp [fuel, mainRank]
    · cases h; simp [fuel, mainRank]
  · split at h
    · cases h; simp [fuel, mainRank]
    · cases h; simp [fuel, mainRank]
  · cases h
  · cases h

theorem stepWorker_fuel (E : Env F) (gt : Task F) (i : Nat) (s s' : RunState)
    (hp : s.panicked = false) (h : stepWorker E gt i s = some s') :
    fuel gt s' < fuel gt s := by
  obtain ⟨main, wg, workers, ec, sc, rep, rwg, sl, el, log, pk⟩ := s
  simp only at hp
  subst hp
  unfold stepWorker at h
  simp only at h
  split at h
  · cases h
  · next img pc hw =>
    have key := fun w' => sum_map_set workerRank workers i (img, pc) w' hw
    split at h
    · split at h
      · next save err hr =>
        cases h
        have := key (img, WorkerPc.sendErr (some err))
        simp [fuel, workerRank] at this ⊢
        omega
      · next save hr =>
        cases h
        have := key (img, WorkerPc.sendSave ⟨save, gt.width, gt.height⟩)
        simp [fuel, workerRank] at this ⊢
        omega
    · split at h
      · cases h; simp [fuel]
      · split at h
        · cases h
          have := key (img, WorkerPc.exiting)
          simp_all [fuel, workerRank, loopRank]
          omega
        · cases h
    · split at h
      · cases h; simp [fuel]
      · split at h
        · cases h
          have := key (img, WorkerPc.exiting)
          simp_all [fuel, workerRank, loopRank]
          omega
        · cases h
    · split at h
      · cases h; simp [fuel]
      · cases h
        have := key (img, WorkerPc.done)
        simp [fuel, workerRank] at this ⊢
        omega
    · cases h

theorem stepSaveLoop_fuel (gt : Task F) (s s' : RunState) (hp : s.panicked = false)
    (h : stepSaveLoop s = some s') : fuel gt s' < fuel gt s := by
  obtain ⟨main, wg, workers, ec, sc, rep, rwg, sl, el, log, pk⟩ := s
  simp only at hp
  subst hp
  unfold stepSaveLoop at h
  simp only at h
  split at h
  · cases h
  · split at h
    · split at h <;> cases h <;> simp [fuel, loopRank]
    · cases h
  · cases h; simp [fuel, loopRank]
  · cases h

theorem stepErrLoop_fuel (gt : Task F) (s s' : RunState) (hp : s.panicked = false)
    (h : stepErrLoop s = some s') : fuel gt s' < fuel gt s := by
  obtain ⟨main, wg, workers, ec, sc, rep, rwg, sl, el, log, pk⟩ := s
  simp only at hp
  subst hp
  unfold stepErrLoop at h
  simp only at h
  split at h
  · cases h
  · split at h
    · split at h <;> cases h <;> simp [fuel, loopRank]
    · cases h
  · cases h; simp [fuel, loopRank]
  · cases h

theorem stepReport_fuel (gt : Task F) (s s' : RunState) (hp : s.panicked = false)
    (h : stepReport s = some s') : fuel gt s' < fuel gt s := by
  obtain ⟨main, wg, workers, ec, sc, rep, rwg, sl, el, log, pk⟩ := s
  simp only at hp
  subst hp
  unfold stepReport at h
  simp only at h
  split at h
  · cases h
  · cases h; cases sl <;> simp [fuel, reportRank, loopRank] <;> omega
  · cases h; cases el <;> simp [fuel, reportRank, loopRank]
  · split at h
    · cases h; simp [fuel, reportRank]
    · cases h
  · split at h
    · cases h; simp [fuel, reportRank, mainRank]; omega
    · cases h
  · cases h

theorem step_fuel (E : Env F) (gt : Task F) (a : Action) (s s' : RunState)
    (h : step E gt a s = some s') : fuel gt s' < fuel gt s := by
  unfold step at h
  split at h
  · cases h
  · next hp =>
    have hp' : s.panicked = false := by simpa using hp
    cases a with
    | main => exact stepMain_fuel gt s s' hp' h
    | worker i => exact stepWorker_fuel E gt i s s' hp' h
    | saveLoop => exact stepSaveLoop_fuel gt s s' hp' h
    | errLoop => exact stepErrLoop_fuel gt s s' hp' h
    | report => exact stepReport_fuel gt s s' hp' h

theorem stepsTaken_le_fuel (E : Env F) (gt : Task F) (sched : List Action) (s : RunState) :
    stepsTaken E gt sched s + fuel gt (exec E gt sched s) ≤ fuel gt s := by
  induction sched generalizing s with
  | nil => simp [stepsTaken, exec]
  | cons a as ih =>
    unfold stepsTaken exec
    cases hs : step E gt a s with
    | none => simpa using ih s
    | some s' =>
      have := step_fuel E gt a s s' hs
      have := ih s'
      simp only [Option.getD_some]
      omega

/-! ## Runs: the invariant -/

theorem Inv_startProgram (E : Env F) (gt : Task F) (reporter : Bool)
    (sent : List GoError) : Inv E gt sent (startProgram reporter sent) := by
  refine ⟨rfl, by simp [startProgram], by simp [startProgram], by simp [startProgram],
    ?_, ?_, by simp [startProgram], by simp [startProgram],
    by simp [startProgram, inHand, owed]⟩
  · simp [mainInv, startProgram]
  · cases reporter <;> simp [reportInv, startProgram]

theorem pending_pos_of_getElem (l : List (Image × WorkerPc)) (i : Nat) (img : Image)
    (pc : WorkerPc) (h : l[i]? = some (img, pc)) (hpc : pc ≠ WorkerPc.done) :
    (l.map pending).sum ≠ 0 := by
  intro h0
  have hmem : (img, pc) ∈ l := List.getElem?_mem h
  exact hpc (all_done_of_sum l h0 _ hmem)

theorem stepMain_inv (E : Env F) (gt : Task F) (s s' : RunState)
    {sent : List GoError} (hI : Inv E gt sent s)
    (h : stepMain gt s = some s') : Inv E gt sent s' := by
  obtain ⟨main, wg, workers, ec, sc, rep, rwg, sl, el, log, pk⟩ := s
  obtain ⟨hP, hIm, hC, hS, hM, hR, hSe, hEe, hL⟩ := hI
  simp only at hP hIm hC hS hSe hEe hL
  unfold stepMain at h
  simp only at h
  split at h
  · -- a send of an admission call
    next err rest =>
    simp only [mainInv] at hM
    obtain ⟨hwk, hw0, hec, hsc⟩ := hM
    split at h
    · next hc => simp [hec] at hc
    · split at h
      · cases h
        refine ⟨hP, hIm, hC, hS, ?_, ?_, hSe, by simp, ?_⟩
        · simp [mainInv, hwk, hw0, hec, hsc]
        · cases rep <;> simp_all [reportInv, loopOpen]
        · refine List.perm_iff_count.2 fun a => ?_
          have h1 := hL.count_eq a
          simp only [inHand, owed, List.map_cons, List.count_append, List.count_cons,
            List.count_nil] at h1 ⊢
          omega
      · cases h
  · -- the call of `Run`
    simp only [mainInv] at hM
    obtain ⟨hwk, hw0, hec, hsc⟩ := hM
    cases h
    refine ⟨hP, hIm, hC, hS, ?_, ?_, hSe, hEe, by simpa [owed, inHand] using hL⟩
    · simp [mainInv, hwk, hec, hsc]
    · cases rep <;> simp_all [reportInv]
  · next i =>
    simp only [mainInv] at hM
    obtain ⟨hi, hle, hec, hsc⟩ := hM
    split at h
    · next img hg =>
      have hlt : i < gt.images.length := by
        by_contra hge
        simp [List.getElem?_eq_none (Nat.le_of_not_lt hge)] at hg
      cases h
      refine ⟨hP, ?_, ?_, ?_, ?_, ?_, hSe, hEe, ?_⟩
      · simp only [List.map_append, List.length_append, List.length_singleton,
          List.map_cons, List.map_nil]
        rw [List.take_succ, ← hi, hg, hIm, hi]
        rfl
      · simp [pending, hC]
      · intro w hw
        rcases List.mem_append.1 hw with hw | hw
        · exact hS w hw
        · simp at hw; subst hw; simp [sendsOutcome]
      · simp only [mainInv]
        refine ⟨by simp [hi], by omega, hec, hsc⟩
      · cases rep <;> simp_all [reportInv]
      · simpa [inHand, owed, delivered] using hL
    · next hg =>
      have hge : gt.images.length ≤ i := by
        by_contra hlt
        have : i < gt.images.length := Nat.lt_of_not_le hlt
        simp [List.getElem?_eq_getElem this] at hg
      cases h
      refine ⟨hP, hIm, hC, hS, ?_, ?_, hSe, hEe, by simpa [owed, inHand] using hL⟩
      · simp only [mainInv]
        exact ⟨by omega, hec, hsc⟩
      · cases rep <;> simp_all [reportInv]
  · simp only [mainInv] at hM
    split at h
    · next hw0 =>
      cases h
      refine ⟨hP, hIm, hC, hS, ?_, ?_, hSe, hEe, by simpa [owed, inHand] using hL⟩
      · simp only [mainInv]
        exact ⟨hM.1, hw0, hM.2.1, hM.2.2⟩
      · cases rep <;> simp_all [reportInv]
    · cases h
  · simp only [mainInv] at hM
    obtain ⟨hlen, hw0, hec, hsc⟩ := hM
    split at h
    · next hc => simp [hec] at hc
    · cases h
      refine ⟨hP, hIm, hC, hS, ?_, ?_, hSe, by simp, by simpa [owed, inHand] using hL⟩
      · simp [mainInv, hlen, hw0, hsc]
      · cases rep <;> simp_all [reportInv]
  · simp only [mainInv] at hM
    obtain ⟨hlen, hw0, hec, hsc⟩ := hM
    split at h
    · next hc => simp [hsc] at hc
    · cases h
      have hrd : rep ≠ ReportPc.done := by
        intro hd
        subst hd
        simp [reportInv] at hR
      refine ⟨hP, hIm, hC, hS, ?_, ?_, by simp, hEe, by simpa [owed, inHand] using hL⟩
      · simp [mainInv, hlen, hw0, hec, hrd]
      · cases rep <;> simp_all [reportInv]
  · cases h
  · cases h

theorem stepWorker_inv (E : Env F) (gt : Task F) (i : Nat) (s s' : RunState)
    {sent : List GoError} (hI : Inv E gt sent s) (h : stepWorker E gt i s = some s') : Inv E gt sent s' := by
  obtain ⟨main, wg, workers, ec, sc, rep, rwg, sl, el, log, pk⟩ := s
  obtain ⟨hP, hIm, hC, hS, hM, hR, hSe, hEe, hL⟩ := hI
  simp only at hP hIm hC hS hSe hEe hL
  unfold stepWorker at h
  simp only at h
  split at h
  · cases h
  · next img pc hw =>
    have hmem : (img, pc) ∈ workers := List.getElem?_mem hw
    have hsum := fun w' => sum_map_set pending workers i (img, pc) w' hw
    have hperm := fun w' => filterMap_set_perm (delivered E gt) workers i (img, pc) w' hw
    have hfst := fun pc' => map_fst_set workers i img pc pc' hw
    have hsends : ∀ pc', sendsOutcome E gt (img, pc') →
        ∀ w ∈ workers.set i (img, pc'), sendsOutcome E gt w := by
      intro pc' hpc' w hwm
      rcases List.mem_or_eq_of_mem_set hwm with hwm | rfl
      · exact hS w hwm
      · exact hpc'
    have hmain : ∀ pc', mainInv gt ⟨main, wg, workers.set i (img, pc'), ec, sc, rep, rwg,
        sl, el, log, pk⟩ := by
      intro pc'
      cases main <;> simpa [mainInv] using hM
    have hopen : pc ≠ WorkerPc.done → wg ≠ 0 := fun hpc =>
      hC ▸ pending_pos_of_getElem workers i img pc hw hpc
    split at h
    · -- `img.ResizeTo(...)`
      split at h
      · next save err hr =>
        cases h
        refine ⟨hP, ?_, ?_, hsends _ ?_, hmain _, hR, hSe, hEe, ?_⟩
        · rw [List.length_set]; exact (hfst _).trans hIm
        · have := hsum (img, WorkerPc.sendErr (some err))
          simp [pending] at this ⊢
          omega
        · simp [sendsOutcome, outcome, hr]
        · have := hperm (img, WorkerPc.sendErr (some err))
          simp only [delivered, Option.toList, List.append_nil] at this
          exact hL.trans (this.symm.append_left _)
      · next save hr =>
        cases h
        refine ⟨hP, ?_, ?_, hsends _ ?_, hmain _, hR, hSe, hEe, ?_⟩
        · rw [List.length_set]; exact (hfst _).trans hIm
        · have := hsum (img, WorkerPc.sendSave ⟨save, gt.width, gt.height⟩)
          simp [pending] at this ⊢
          omega
        · simp [sendsOutcome, outcome, hr]
        · have := hperm (img, WorkerPc.sendSave ⟨save, gt.width, gt.height⟩)
          simp only [delivered, Option.toList, List.append_nil] at this
          exact hL.trans (this.symm.append_left _)
    · -- `gt.chErr <- err`
      next err =>
      split at h
      · next hc =>
        have := hopen (by simp)
        cases main <;> simp_all [mainInv]
      · next hc =>
        split at h
        · cases h
          have hout : LogLine.fail err = outcome E gt img := hS _ hmem
          refine ⟨hP, ?_, ?_, hsends _ (by simp [sendsOutcome]), hmain _, ?_, hSe,
            by simp, ?_⟩
          · rw [List.length_set]; exact (hfst _).trans hIm
          · have := hsum (img, WorkerPc.exiting)
            simp [pending] at this ⊢
            omega
          · cases rep <;> simp_all [reportInv, loopOpen]
          · refine List.perm_iff_count.2 fun a => ?_
            have h1 := hL.count_eq a
            have h2 := (hperm (img, WorkerPc.exiting)).count_eq a
            simp only [inHand, owed, delivered, Option.toList, ← hout, List.count_append,
              List.count_cons, List.count_nil] at h1 h2 ⊢
            omega
        · cases h
    · -- `gt.chSave <- saveRs{...}`
      next rs =>
      split at h
      · next hc =>
        have := hopen (by simp)
        cases main <;> simp_all [mainInv]
      · next hc =>
        split at h
        · cases h
          have hout : LogLine.ok rs = outcome E gt img := hS _ hmem
          refine ⟨hP, ?_, ?_, hsends _ (by simp [sendsOutcome]), hmain _, ?_, by simp,
            hEe, ?_⟩
          · rw [List.length_set]; exact (hfst _).trans hIm
          · have := hsum (img, WorkerPc.exiting)
            simp [pending] at this ⊢
            omega
          · cases rep <;> simp_all [reportInv, loopOpen]
          · refine List.perm_iff_count.2 fun a => ?_
            have h1 := hL.count_eq a
            have h2 := (hperm (img, WorkerPc.exiting)).count_eq a
            simp only [inHand, owed, delivered, Option.toList, ← hout, List.count_append,
              List.count_cons, List.count_nil] at h1 h2 ⊢
            omega
        · cases h
    · -- the deferred `wg.Done()`
      split at h
      · next hz => exact absurd hz (hopen (by simp))
      · next hz =>
        cases h
        refine ⟨hP, ?_, ?_, hsends _ (by simp [sendsOutcome]), ?_, hR, hSe, hEe, ?_⟩
        · rw [List.length_set]; exact (hfst _).trans hIm
        · have := hsum (img, WorkerPc.done)
          simp [pending] at this ⊢
          omega
        · cases main <;> simp only [mainInv, List.length_set] at hM ⊢ <;>
            first
            | exact hM
            | exact absurd hM.2.1 hz
        · have := hperm (img, WorkerPc.done)
          simp only [delivered, Option.toList] at this
          exact hL.trans (((List.perm_append_right_iff _).1 this).symm.append_left _)
    · cases h

theorem stepSaveLoop_inv (E : Env F) (gt : Task F) (s s' : RunState) {sent : List GoError} (hI : Inv E gt sent s)
    (h : stepSaveLoop s = some s') : Inv E gt sent s' := by
  obtain ⟨main, wg, workers, ec, sc, rep, rwg, sl, el, log, pk⟩ := s
  obtain ⟨hP, hIm, hC, hS, hM, hR, hSe, hEe, hL⟩ := hI
  simp only at hP hIm hC hS hSe hEe hL
  unfold stepSaveLoop at h
  simp only at h
  split at h
  · cases h
  · split at h
    · next hc =>
      have hpos : rwg ≠ 0 := by
        cases rep <;> simp_all [reportInv, loopOpen]
      split at h
      · next hz => exact absurd hz hpos
      · cases h
        refine ⟨hP, hIm, hC, hS, ?_, ?_, fun _ => hc, hEe, ?_⟩
        · cases main <;> simpa [mainInv] using hM
        · cases rep <;> simp_all [reportInv, loopOpen]
        · simpa [inHand] using hL
    · cases h
  · next rs =>
    cases h
    refine ⟨hP, hIm, hC, hS, ?_, ?_, by simp, hEe, ?_⟩
    · cases main <;> simpa [mainInv] using hM
    · cases rep <;> simp_all [reportInv, loopOpen]
    · simpa [inHand] using hL
  · cases h

theorem stepErrLoop_inv (E : Env F) (gt : Task F) (s s' : RunState) {sent : List GoError} (hI : Inv E gt sent s)
    (h : stepErrLoop s = some s') : Inv E gt sent s' := by
  obtain ⟨main, wg, workers, ec, sc, rep, rwg, sl, el, log, pk⟩ := s
  obtain ⟨hP, hIm, hC, hS, hM, hR, hSe, hEe, hL⟩ := hI
  simp only at hP hIm hC hS hSe hEe hL
  unfold stepErrLoop at h
  simp only at h
  split at h
  · cases h
  · split at h
    · next hc =>
      have hpos : rwg ≠ 0 := by
        cases rep <;> simp_all [reportInv, loopOpen]
      split at h
      · next hz => exact absurd hz hpos
      · cases h
        refine ⟨hP, hIm, hC, hS, ?_, ?_, hSe, fun _ => hc, ?_⟩
        · cases main <;> simpa [mainInv] using hM
        · cases rep <;> simp_all [reportInv, loopOpen]
        · simpa [inHand] using hL
    · cases h
  · next err =>
    cases h
    refine ⟨hP, hIm, hC, hS, ?_, ?_, hSe, by simp, ?_⟩
    · cases main <;> simpa [mainInv] using hM
    · cases rep <;> simp_all [reportInv, loopOpen]
    · refine List.perm_iff_count.2 fun a => ?_
      have h1 := hL.count_eq a
      simp only [inHand, owed, List.count_append, List.count_cons, List.count_nil] at h1 ⊢
      omega
  · cases h

theorem stepReport_inv (E : Env F) (gt : Task F) (s s' : RunState) {sent : List GoError} (hI : Inv E gt sent s)
    (h : stepReport s = some s') : Inv E gt sent s' := by
  obtain ⟨main, wg, workers, ec, sc, rep, rwg, sl, el, log, pk⟩ := s
  obtain ⟨hP, hIm, hC, hS, hM, hR, hSe, hEe, hL⟩ := hI
  simp only at hP hIm hC hS hSe hEe hL
  unfold stepReport at h
  simp only at h
  split at h
  · cases h
  · cases h
    simp only [reportInv] at hR
    obtain ⟨h1, h2, h3⟩ := hR
    subst h1 h2 h3
    refine ⟨hP, hIm, hC, hS, ?_, ?_, by simp, hEe, ?_⟩
    · cases main <;> simp_all [mainInv, reportInv] <;> omega
    · simp [reportInv, loopOpen]
    · simpa [inHand] using hL
  · cases h
    simp only [reportInv] at hR
    obtain ⟨h1, h2, h3⟩ := hR
    subst h2
    refine ⟨hP, hIm, hC, hS, ?_, ?_, hSe, by simp, ?_⟩
    · cases main <;> simp_all [mainInv, reportInv] <;> omega
    · simp [reportInv, loopOpen, h1, h3]
    · simpa [inHand] using hL
  · split at h
    · next hz =>
      cases h
      simp only [reportInv] at hR
      obtain ⟨h1, h2, h3⟩ := hR
      have hmr : main ≠ MainPc.returned := by
        intro hm
        subst hm
        simp [mainInv] at hM
      refine ⟨hP, hIm, hC, hS, ?_, ?_, hSe, hEe, hL⟩
      · cases main <;> simp_all [mainInv] <;> omega
      · simp only [reportInv]
        refine ⟨?_, ?_, hz, hmr⟩
        · cases sl <;> simp_all [loopOpen]
        · cases el <;> simp_all [loopOpen]
    · cases h
  · split at h
    · cases h
      simp only [reportInv] at hR
      obtain ⟨h1, h2, h3, _⟩ := hR
      refine ⟨hP, hIm, hC, hS, ?_, ?_, hSe, hEe, by simpa [owed, inHand] using hL⟩
      · simp only [mainInv] at hM ⊢
        exact ⟨hM.1, hM.2.1, hM.2.2.1, hM.2.2.2.1, trivial⟩
      · simp [reportInv, h1, h2, h3]
    · cases h
  · cases h

theorem step_inv (E : Env F) (gt : Task F) (a : Action) (s s' : RunState)
    {sent : List GoError} (hI : Inv E gt sent s) (h : step E gt a s = some s') : Inv E gt sent s' := by
  unfold step at h
  split at h
  · cases h
  · cases a with
    | main => exact stepMain_inv E gt s s' hI h
    | worker i => exact stepWorker_inv E gt i s s' hI h
    | saveLoop => exact stepSaveLoop_inv E gt s s' hI h
    | errLoop => exact stepErrLoop_inv E gt s s' hI h
    | report => exact stepReport_inv E gt s s' hI h

theorem exec_inv (E : Env F) (gt : Task F) (sched : List Action) (s : RunState)
    {sent : List GoError}
    (hI : Inv E gt sent s) : Inv E gt sent (exec E gt sched s) := by
  induction sched generalizing s with
  | nil => exact hI
  | cons a as ih =>
    unfold exec
    cases hs : step E gt a s with
    | none => simpa using ih s hI
    | some s' => simpa using ih s' (step_inv E gt a s s' hI hs)

/-! ## Runs: the reporter stays, or stays away -/

theorem step_report_ne_absent (E : Env F) (gt : Task F) (a : Action) (s s' : RunState)
    (h : step E gt a s = some s') : s.report = .absent ↔ s'.report = .absent := by
  obtain ⟨main, wg, workers, ec, sc, rep, rwg, sl, el, log, pk⟩ := s
  unfold step at h
  split at h
  · cases h
  · cases a with
    | main =>
      simp only [stepMain] at h
      repeat' split at h
      all_goals first | cases h; rfl | cases h
    | worker i =>
      simp only [stepWorker] at h
      repeat' split at h
      all_goals first | cases h; rfl | cases h
    | saveLoop =>
      simp only [stepSaveLoop] at h
      repeat' split at h
      all_goals first | cases h; rfl | cases h
    | errLoop =>
      simp only [stepErrLoop] at h
      repeat' split at h
      all_goals first | cases h; rfl | cases h
    | report =>
      simp only [stepReport] at h
      repeat' split at h
      all_goals first | (cases h; simp) | cases h

theorem exec_report_absent (E : Env F) (gt : Task F) (sched : List Action) (s : RunState) :
    s.report = .absent ↔ (exec E gt sched s).report = .absent := by
  induction sched generalizing s with
  | nil => rfl
  | cons a as ih =>
    unfold exec
    cases hs : step E gt a s with
    | none => simpa using ih s
    | some s' => simpa using (step_report_ne_absent E gt a s s' hs).trans (ih s')

/-! ## Runs: with a reporter, some goroutine can always move until `Run` returns -/

theorem enabled_of_not_returned (E : Env F) (gt : Task F) (s : RunState) {sent : List GoError} (hI : Inv E gt sent s)
    (hrep : s.report ≠ .absent) (hm : s.main ≠ .returned) :
    ∃ a, (step E gt a s).isSome = true := by
  obtain ⟨main, wg, workers, ec, sc, rep, rwg, sl, el, log, pk⟩ := s
  obtain ⟨hP, hIm, hC, hS, hM, hR, hSe, hEe, hL⟩ := hI
  simp only at hP hIm hC hS hSe hEe hL hrep hm
  subst hP
  have hreport : rep = .spawnSave ∨ rep = .spawnErr →
      (step E gt .report ⟨main, wg, workers, ec, sc, rep, rwg, sl, el, log, false⟩).isSome
        = true := by
    rintro (h | h) <;> subst h <;> simp [step, stepReport]
  cases main with
  | admitting rest =>
    simp only [mainInv] at hM
    cases rest with
    | nil => exact ⟨.main, by simp [step, stepMain]⟩
    | cons err rest =>
      cases el with
      | idle =>
        refine ⟨.report, hreport ?_⟩
        cases rep <;> simp_all [reportInv]
      | recv => exact ⟨.main, by simp [step, stepMain, hM.2.2.1]⟩
      | got v => exact ⟨.errLoop, by simp [step, stepErrLoop]⟩
      | exited => simp [hM.2.2.1] at hEe
  | dispatch i =>
    refine ⟨.main, ?_⟩
    simp only [step, stepMain]
    cases gt.images[i]? <;> simp
  | wait =>
    simp only [mainInv] at hM
    by_cases hw0 : wg = 0
    · exact ⟨.main, by simp [step, stepMain, hw0]⟩
    · obtain ⟨i, img, pc, hw, hpc⟩ := exists_pending workers (hC ▸ hw0)
      cases pc with
      | resize =>
        refine ⟨.worker i, ?_⟩
        simp only [step, stepWorker, hw]
        rcases hr : E.ResizeTo img gt.dst gt.width gt.height gt.interp gt.quality with
          ⟨save, _ | err⟩ <;> simp
      | sendErr err =>
        cases el with
        | idle =>
          refine ⟨.report, hreport ?_⟩
          cases rep <;> simp_all [reportInv]
        | recv => exact ⟨.worker i, by simp [step, stepWorker, hw, hM.2.1]⟩
        | got v => exact ⟨.errLoop, by simp [step, stepErrLoop]⟩
        | exited => simp [hM.2.1] at hEe
      | sendSave rs =>
        cases sl with
        | idle =>
          refine ⟨.report, hreport ?_⟩
          cases rep <;> simp_all [reportInv]
        | recv => exact ⟨.worker i, by simp [step, stepWorker, hw, hM.2.2]⟩
        | got v => exact ⟨.saveLoop, by simp [step, stepSaveLoop]⟩
        | exited => simp [hM.2.2] at hSe
      | exiting => exact ⟨.worker i, by simp [step, stepWorker, hw, hw0]⟩
      | done => exact absurd rfl hpc
  | closeErr =>
    refine ⟨.main, ?_⟩
    simp only [step, stepMain]
    cases ec <;> simp
  | closeSave =>
    refine ⟨.main, ?_⟩
    simp only [step, stepMain]
    cases sc <;> simp
  | recvFin =>
    simp only [mainInv] at hM
    obtain ⟨-, -, hec, hsc, hnd⟩ := hM
    cases rep with
    | absent => exact absurd rfl hrep
    | spawnSave => exact ⟨.report, hreport (Or.inl rfl)⟩
    | spawnErr => exact ⟨.report, hreport (Or.inr rfl)⟩
    | wait =>
      by_cases hz : rwg = 0
      · exact ⟨.report, by simp [step, stepReport, hz]⟩
      · simp only [reportInv] at hR
        cases sl with
        | idle => simp at hR
        | recv => exact ⟨.saveLoop, by simp [step, stepSaveLoop, hsc, hz]⟩
        | got v => exact ⟨.saveLoop, by simp [step, stepSaveLoop]⟩
        | exited =>
          cases el with
          | idle => simp at hR
          | recv => exact ⟨.errLoop, by simp [step, stepErrLoop, hec, hz]⟩
          | got v => exact ⟨.errLoop, by simp [step, stepErrLoop]⟩
          | exited => simp [loopOpen] at hR; exact absurd hR hz
    | sendFin => exact ⟨.report, by simp [step, stepReport]⟩
    | done => exact absurd rfl hnd
  | returned => exact absurd rfl hm

theorem worker_image_mem (E : Env F) (gt : Task F) (s : RunState) {sent : List GoError} (hI : Inv E gt sent s) :
    ∀ w ∈ s.workers, w.1 ∈ gt.images := by
  intro w hw
  have h1 : w.1 ∈ s.workers.map Prod.fst := List.mem_map_of_mem _ hw
  rw [hI.images] at h1
  exact List.mem_of_mem_take h1

theorem log_eq_of_returned (E : Env F) (gt : Task F) (s : RunState)
    {sent : List GoError} (hI : Inv E gt sent s) (hm : s.main = .returned) :
    s.log.Perm (sent.map LogLine.fail ++ gt.images.map (outcome E gt)) ∧
      s.saveLoop = .exited ∧ s.errLoop = .exited := by
  obtain ⟨main, wg, workers, ec, sc, rep, rwg, sl, el, log, pk⟩ := s
  obtain ⟨hP, hIm, hC, hS, hM, hR, hSe, hEe, hL⟩ := hI
  simp only at hP hIm hC hS hSe hEe hL hm
  subst hm
  simp only [mainInv] at hM
  obtain ⟨hlen, hw0, -, -, hrd⟩ := hM
  subst hrd
  simp only [reportInv] at hR
  obtain ⟨hsl, hel, -, -⟩ := hR
  subst hsl hel
  refine ⟨?_, rfl, rfl⟩
  simp only [inHand, owed, List.map_nil, List.append_nil] at hL
  have hdone := all_done_of_sum workers (by omega)
  have hfm : workers.filterMap (delivered E gt) =
      (workers.map Prod.fst).map (outcome E gt) := by
    clear hL hIm hC hS hlen
    induction workers with
    | nil => rfl
    | cons x xs ih =>
      obtain ⟨img, pc⟩ := x
      have hx : pc = WorkerPc.done := hdone (img, pc) (List.mem_cons_self _ _)
      subst hx
      simp only [List.filterMap_cons, delivered, List.map_cons]
      rw [ih (fun w hw => hdone w (List.mem_cons_of_mem _ hw))]
  rw [hfm, hIm, hlen, List.take_length] at hL
  exact hL

/-! ## Admission: the claims -/

/-- C4: `Task.Filter` applies the name check first and the size check second. If the name
check rejects, the result is the name check's error, whatever the size check would do (it
is not consulted: replacing it by any other check leaves the result the same). If the name
check accepts and the size check rejects, the result is the size check's error. If both
accept, the result is the nil error. -/
theorem Filter_name_then_size (E : Env F) (gt : Task F) (image : Image) :
    ((E.DetectName gt.filter image).1 = false →
      Task.Filter E gt image = (E.DetectName gt.filter image).2 ∧
      ∀ ds, Task.Filter { E with DetectSize := ds } gt image
              = (E.DetectName gt.filter image).2) ∧
    ((E.DetectName gt.filter image).1 = true → (E.DetectSize gt.filter image).1 = false →
      Task.Filter E gt image = (E.DetectSize gt.filter image).2) ∧
    ((E.DetectName gt.filter image).1 = true → (E.DetectSize gt.filter image).1 = true →
      Task.Filter E gt image = none) := by
  refine ⟨fun h => ⟨?_, fun ds => ?_⟩, fun h1 h2 => ?_, fun h1 h2 => ?_⟩
  · unfold Task.Filter
    split
    · next h0 => simp [h0]
    · next h0 => simp [h0] at h
  · unfold Task.Filter
    split
    · next h0 => simp only at h0; simp [h0]
    · next h0 => simp only at h0; simp [h0] at h
  · unfold Task.Filter
    split
    · next h0 => simp [h0] at h1
    · split
      · next h0 => simp [h0]
      · next h0 => simp [h0] at h2
  · unfold Task.Filter
    split
    · next h0 => simp [h0] at h1
    · split
      · next h0 => simp [h0] at h2
      · rfl

/-- Instance of C4 on the example collaborators: a name rejection, a size rejection and an
acceptance. -/
theorem Filter_name_then_size_witness :
    Task.Filter skipEnv skipTask (.HttpImage "skip.png") = some "name excluded" ∧
    Task.Filter skipEnv skipTask (.HttpImage "a.png") = some "size excluded" ∧
    Task.Filter skipEnv skipTask (.LocImage "a.png") = none :=
  ⟨((Filter_name_then_size skipEnv skipTask (.HttpImage "skip.png")).1 (by decide)).1,
   (Filter_name_then_size skipEnv skipTask (.HttpImage "a.png")).2.1 (by decide) (by decide),
   (Filter_name_then_size skipEnv skipTask (.LocImage "a.png")).2.2 (by decide) (by decide)⟩

/-- C5: the values `Add` sends on the failure stream. A rejected image sends nothing when
verbose is off, and exactly the error of the check that rejected it when verbose is on (the
name check's error if that check rejected, else the size check's error); an accepted image
sends nothing. `Add` has no send on the success stream, so this list is all it emits. -/
theorem Add_rejection_events (E : Env F) (gt : Task F) (image : Image) :
    (Task.Add E gt image).2 =
      if (E.DetectName gt.filter image).1 = false then
        (if gt.verbose then [(E.DetectName gt.filter image).2] else [])
      else if (E.DetectSize gt.filter image).1 = false then
        (if gt.verbose then [(E.DetectSize gt.filter image).2] else [])
      else [] := by
  unfold Task.Add
  split
  · next h0 => simp [h0]
  · next h0 =>
    split
    · next h1 => simp [h0, h1]
    · next h1 => simp [h0, h1]

/-- C8: `AddScanDir`. When the scan returns an error, the task is unchanged and that error
is the one value sent on the failure stream. When the scan succeeds, the task afterwards is
the one obtained by calling `Add` on the local item of each path in order, so the paths
appended are exactly those the filter accepts. -/
theorem AddScanDir_scan_error_or_Add_each (E : Env F) (gt : Task F) (dir : String) :
    (∀ err, (E.GetImagesFromDir dir).2 = some err →
      Task.AddScanDir E gt dir = (gt, [some err])) ∧
    ((E.GetImagesFromDir dir).2 = none →
      (Task.AddScanDir E gt dir).1 =
        (E.GetImagesFromDir dir).1.foldl (fun t p => (Task.Add E t (.LocImage p)).1) gt ∧
      (Task.AddScanDir E gt dir).1.images =
        gt.images ++
          ((E.GetImagesFromDir dir).1.map Image.LocImage).filter (accepts E gt.filter)) := by
  refine ⟨fun err h => ?_, fun h => ?_⟩
  · unfold Task.AddScanDir
    split
    · next e h0 => simp only [h0] at h; cases h; rfl
    · next h0 => simp [h0] at h
  · unfold Task.AddScanDir
    split
    · next e h0 => simp [h0] at h
    · next imgs h0 =>
      simp only [h0]
      exact ⟨by rw [addAll_fst, List.foldl_map], addAll_images E gt _⟩

/-- Instance of C8 on the example collaborators: a failing scan and a scan of two paths of
which the filter rejects one. -/
theorem AddScanDir_scan_error_or_Add_each_witness :
    Task.AddScanDir skipEnv skipTask "" = (skipTask, [some "no such directory"]) ∧
    (Task.AddScanDir skipEnv skipTask "d").1.images = [Image.LocImage "d/b.png"] :=
  ⟨(AddScanDir_scan_error_or_Add_each skipEnv skipTask "").1 "no such directory"
      (by decide),
   ((AddScanDir_scan_error_or_Add_each skipEnv skipTask "d").2 (by decide)).2.trans
      (by decide)⟩

/-- C9 as stated fails: with a name check that rejects with a nil error (`silentEnv`),
on a task with a filter set, `Task.Filter` returns the nil error for the local image
"a.png" although `Task.Add` does not append it. -/
theorem Filter_nil_but_Add_rejects :
    ¬ (∀ (E : Env Unit) (gt : Task Unit) (image : Image),
        Task.Filter E gt image = none ↔
          (Task.Add E gt image).1.images = gt.images ++ [image]) := by
  intro h
  have h1 := (h silentEnv unitTask (.LocImage "a.png")).1 (by decide)
  revert h1
  decide

/-- C9 amended: when a check that rejects always returns a non-nil error, `Task.Filter`
returns the nil error if and only if `Task.Add` appends the image. -/
theorem Filter_nil_iff_Add_appends (E : Env F) (gt : Task F) (image : Image)
    (hname : (E.DetectName gt.filter image).1 = false →
      (E.DetectName gt.filter image).2 ≠ none)
    (hsize : (E.DetectSize gt.filter image).1 = false →
      (E.DetectSize gt.filter image).2 ≠ none) :
    Task.Filter E gt image = none ↔
      (Task.Add E gt image).1.images = gt.images ++ [image] := by
  rw [Add_images]
  unfold Task.Filter accepts
  split
  · next err h0 =>
    have := hname (by simp [h0])
    simp [h0] at this
    simp [h0, this]
  · next h0 =>
    split
    · next err h1 =>
      have := hsize (by simp [h1])
      simp [h1] at this
      simp [h0, h1, this]
    · next h1 => simp [h0, h1]

/-- Instance of the amended C9 on the example collaborators. -/
theorem Filter_nil_iff_Add_appends_witness :
    Task.Filter skipEnv skipTask (.LocImage "skip.png") = none ↔
      (Task.Add skipEnv skipTask (.LocImage "skip.png")).1.images =
        skipTask.images ++ [.LocImage "skip.png"] :=
  Filter_nil_iff_Add_appends skipEnv skipTask (.LocImage "skip.png") (by decide) (by decide)

/-- C10: `AddImgs(s)` is the loop that calls `Add` on one local item per field of
`strings.Split(s, ",")`, from left to right, whatever the filter: the task afterwards and
the values sent on the failure stream are those of that sequence of `Add` calls, so the
sequence grows by the fields the filter accepts, in order. `AddUrls(s)` does the same with
remote items. The fields of `s` are (number of commas in `s`) + 1 texts without a comma
which, joined by commas, give `s` back. With a filter that accepts every image, the
admitted sequence afterwards is the old one followed by one item per field, in order, and
`AddImgs("")` appends exactly the local item with the empty path. -/
theorem AddImgs_AddUrls_one_item_per_field (E : Env F) (gt : Task F) (s : String) :
    Task.AddImgs E gt s =
      (splitComma s).foldl (fun acc p =>
        ((Task.Add E acc.1 (.LocImage p)).1, acc.2 ++ (Task.Add E acc.1 (.LocImage p)).2))
        (gt, []) ∧
    Task.AddUrls E gt s =
      (splitComma s).foldl (fun acc p =>
        ((Task.Add E acc.1 (.HttpImage p)).1, acc.2 ++ (Task.Add E acc.1 (.HttpImage p)).2))
        (gt, []) ∧
    (Task.AddImgs E gt s).1.images =
      gt.images ++ ((splitComma s).map Image.LocImage).filter (accepts E gt.filter) ∧
    (Task.AddUrls E gt s).1.images =
      gt.images ++ ((splitComma s).map Image.HttpImage).filter (accepts E gt.filter) ∧
    (splitComma s).length = s.data.count ',' + 1 ∧
    [','].intercalate ((splitComma s).map String.data) = s.data ∧
    (∀ f ∈ splitComma s, ',' ∉ f.data) ∧
    splitComma "" = [""] ∧
    ((∀ image, accepts E gt.filter image = true) →
      (Task.AddImgs E gt s).1.images = gt.images ++ (splitComma s).map Image.LocImage ∧
      (Task.AddUrls E gt s).1.images = gt.images ++ (splitComma s).map Image.HttpImage ∧
      (Task.AddImgs E gt "").1.images = gt.images ++ [Image.LocImage ""] ∧
      (Task.AddUrls E gt "").1.images = gt.images ++ [Image.HttpImage ""]) := by
  have hdata : (splitComma s).map String.data = splitChars ',' s.data := by
    simp [splitComma, List.map_map, Function.comp_def]
  have hempty : splitComma "" = [""] := by decide
  refine ⟨?_, ?_, ?_, ?_, ?_, ?_, ?_, hempty, fun hacc => ?_⟩
  · simp only [Task.AddImgs, addAll, List.foldl_map]
    rfl
  · simp only [Task.AddUrls, addAll, List.foldl_map]
    rfl
  · rw [Task.AddImgs, addAll_images]
  · rw [Task.AddUrls, addAll_images]
  · simp [splitComma, splitChars_length]
  · rw [hdata, splitChars_intercalate]
  · intro f hf
    have : f.data ∈ (splitComma s).map String.data := List.mem_map_of_mem _ hf
    rw [hdata] at this
    exact splitChars_no_sep ',' s.data _ this
  · have hall : ∀ xs : List Image, xs.filter (accepts E gt.filter) = xs := fun xs =>
      List.filter_eq_self.2 (fun a _ => hacc a)
    refine ⟨?_, ?_, ?_, ?_⟩
    · rw [Task.AddImgs, addAll_images, hall]
    · rw [Task.AddUrls, addAll_images, hall]
    · rw [Task.AddImgs, addAll_images, hall, hempty]; rfl
    · rw [Task.AddUrls, addAll_images, hall, hempty]; rfl

/-- Instance of C10. On collaborators whose checks accept every image, three fields give
three items. With the filter that rejects names containing "skip", the task and the sends
of `AddImgs("skip_me.png,keep.png")` on a verbose task are those of `Add("skip_me.png")`
followed by `Add("keep.png")`: only "keep.png" is appended and the rejection is sent. -/
theorem AddImgs_AddUrls_one_item_per_field_witness :
    ((Task.AddImgs openEnv unitTask "a.png,,b.png").1.images =
      [Image.LocImage "a.png", Image.LocImage "", Image.LocImage "b.png"] ∧
     (Task.AddUrls openEnv unitTask "").1.images = [Image.HttpImage ""]) ∧
    ((Task.AddImgs skipEnv (skipTask.SetVerbose true) "skip_me.png,keep.png").1.images =
      [Image.LocImage "keep.png"] ∧
     (Task.AddImgs skipEnv (skipTask.SetVerbose true) "skip_me.png,keep.png").2 =
      [some "name excluded"]) :=
  ⟨⟨(((AddImgs_AddUrls_one_item_per_field openEnv unitTask "a.png,,b.png").2.2.2.2.2.2.2.2
        (fun _ => rfl)).1).trans (by decide),
    ((AddImgs_AddUrls_one_item_per_field openEnv unitTask "a.png,,b.png").2.2.2.2.2.2.2.2
        (fun _ => rfl)).2.2.2⟩,
   ⟨((AddImgs_AddUrls_one_item_per_field skipEnv (skipTask.SetVerbose true)
        "skip_me.png,keep.png").2.2.1).trans (by decide),
    (congrArg Prod.snd (AddImgs_AddUrls_one_item_per_field skipEnv
        (skipTask.SetVerbose true) "skip_me.png,keep.png").1).trans (by decide)⟩⟩

/-! ## Building a task: helper lemmas -/

theorem addAll_params (E : Env F) (gt : Task F) (xs : List Image) :
    (addAll E gt xs).1.dst = gt.dst ∧ (addAll E gt xs).1.width = gt.width ∧
      (addAll E gt xs).1.height = gt.height ∧ (addAll E gt xs).1.interp = gt.interp ∧
      (addAll E gt xs).1.quality = gt.quality := by
  have hadd : ∀ (t : Task F) (x : Image),
      (Task.Add E t x).1.dst = t.dst ∧ (Task.Add E t x).1.width = t.width ∧
      (Task.Add E t x).1.height = t.height ∧ (Task.Add E t x).1.interp = t.interp ∧
      (Task.Add E t x).1.quality = t.quality := by
    intro t x
    unfold Task.Add
    split
    · simp
    · split <;> simp
  rw [addAll_fst]
  induction xs generalizing gt with
  | nil => simp
  | cons x xs ih =>
    simp only [List.foldl_cons]
    obtain ⟨h1, h2, h3, h4, h5⟩ := ih (Task.Add E gt x).1
    obtain ⟨g1, g2, g3, g4, g5⟩ := hadd gt x
    exact ⟨h1.trans g1, h2.trans g2, h3.trans g3, h4.trans g4, h5.trans g5⟩

theorem Op_run_params (E : Env F) (gt : Task F) (op : Op F) :
    (op.run E gt).dst = gt.dst ∧ (op.run E gt).width = gt.width ∧
      (op.run E gt).height = gt.height ∧ (op.run E gt).interp = gt.interp ∧
      (op.run E gt).quality = gt.quality := by
  cases op with
  | SetVerbose v => simp [Op.run, Task.SetVerbose]
  | SetFilter f => simp [Op.run, Task.SetFilter]
  | Add image => simpa [Op.run, addAll, addNext] using addAll_params E gt [image]
  | AddImg img => simp [Op.run, Task.AddImg]
  | AddImgs imgs => exact addAll_params E gt _
  | AddUrl url => simp [Op.run, Task.AddUrl]
  | AddUrls urls => exact addAll_params E gt _
  | AddScanDir dir =>
    simp only [Op.run, Task.AddScanDir]
    split
    · simp
    · exact addAll_params E gt _

theorem build_params (E : Env F) (dst : String) (w h interp : Nat) (ops : List (Op F)) :
    (build E dst w h interp ops).dst = dst ∧ (build E dst w h interp ops).width = w ∧
      (build E dst w h interp ops).height = h ∧
      (build E dst w h interp ops).interp = interp ∧
      (build E dst w h interp ops).quality = 0 := by
  unfold build
  induction ops using List.reverseRecOn with
  | nil => simp [NewTask]
  | append_singleton ops op ih =>
    rw [List.foldl_append]
    simp only [List.foldl_cons, List.foldl_nil]
    obtain ⟨h1, h2, h3, h4, h5⟩ := ih
    obtain ⟨g1, g2, g3, g4, g5⟩ :=
      Op_run_params E (List.foldl (Op.run E) (NewTask dst w h interp) ops) op
    exact ⟨g1.trans h1, g2.trans h2, g3.trans h3, g4.trans h4, g5.trans h5⟩

/-! ## Runs: the claims -/

/-- C1 as stated fails: the values that admission sends on the failure stream reach the
same reporter. A client sets the filter "skip" and verbose, starts the reporter, offers
"skip_me.png" and "keep.png" to `Add` and calls `Run`. One item is admitted (N = 1), and
when `Run` has returned the reporter has logged two events: the rejection of "skip_me.png"
sent by `Add`, and the success of "keep.png". -/
theorem Run_log_holds_admission_sends :
    verboseTask.images = [Image.LocImage "keep.png"] ∧
    verboseSent = [some "name excluded"] ∧
    (exec skipEnv verboseTask verboseSchedule (startProgram true verboseSent)).main
      = .returned ∧
    (exec skipEnv verboseTask verboseSchedule (startProgram true verboseSent)).log =
      [LogLine.fail (some "name excluded"), LogLine.ok ⟨"out/keep.png", 400, 0⟩] ∧
    (exec skipEnv verboseTask verboseSchedule (startProgram true verboseSent)).log.length
      ≠ verboseTask.images.length := by
  decide

/-- C1 amended: a client makes `NewTask(dst, w, h, interp)`, starts the reporter, makes
any admission calls and calls `Run`; the task then has N >= 0 admitted items and admission
has sent k values on the failure stream. Under every schedule of the goroutines, no
goroutine panics. When `Run` has returned, both loops of the reporter have left and the
lines it has logged are, up to their order, exactly the k values sent by admission, as
failures, and the outcomes of the N items, one each: the failure carrying the error of
`ResizeTo` when it returned one, the success otherwise; when admission sent nothing, these
are exactly N lines. `Run` does return: as long as it has not, some goroutine can move,
and no schedule makes more than `5 * N + 2 * k + 17` moves. -/
theorem Run_reports_admission_sends_and_each_item_once (E : Env F) (dst : String)
    (w h interp : Nat) (ops : List (Op F)) (sched : List Action) :
    (exec E (build E dst w h interp ops) sched
      (startProgram true (buildSends E dst w h interp ops))).panicked = false ∧
    ((exec E (build E dst w h interp ops) sched
      (startProgram true (buildSends E dst w h interp ops))).main = .returned →
      (exec E (build E dst w h interp ops) sched
        (startProgram true (buildSends E dst w h interp ops))).log.Perm
        ((buildSends E dst w h interp ops).map LogLine.fail ++
          (build E dst w h interp ops).images.map
            (outcome E (build E dst w h interp ops))) ∧
      (exec E (build E dst w h interp ops) sched
        (startProgram true (buildSends E dst w h interp ops))).log.length =
        (buildSends E dst w h interp ops).length +
          (build E dst w h interp ops).images.length ∧
      (buildSends E dst w h interp ops = [] →
        (exec E (build E dst w h interp ops) sched
          (startProgram true (buildSends E dst w h interp ops))).log.Perm
          ((build E dst w h interp ops).images.map
            (outcome E (build E dst w h interp ops))) ∧
        (exec E (build E dst w h interp ops) sched
          (startProgram true (buildSends E dst w h interp ops))).log.length =
          (build E dst w h interp ops).images.length) ∧
      (exec E (build E dst w h interp ops) sched
        (startProgram true (buildSends E dst w h interp ops))).saveLoop = .exited ∧
      (exec E (build E dst w h interp ops) sched
        (startProgram true (buildSends E dst w h interp ops))).errLoop = .exited) ∧
    ((exec E (build E dst w h interp ops) sched
      (startProgram true (buildSends E dst w h interp ops))).main ≠ .returned →
      ∃ a, (step E (build E dst w h interp ops) a
        (exec E (build E dst w h interp ops) sched
          (startProgram true (buildSends E dst w h interp ops)))).isSome = true) ∧
    stepsTaken E (build E dst w h interp ops) sched
        (startProgram true (buildSends E dst w h interp ops)) ≤
      5 * (build E dst w h interp ops).images.length +
        2 * (buildSends E dst w h interp ops).length + 17 := by
  generalize build E dst w h interp ops = gt
  generalize buildSends E dst w h interp ops = sent
  have hI := exec_inv E gt sched (startProgram true sent) (Inv_startProgram E gt true sent)
  refine ⟨hI.notPanicked, fun hm => ?_, fun hm => ?_, ?_⟩
  · obtain ⟨h1, h2, h3⟩ := log_eq_of_returned E gt _ hI hm
    refine ⟨h1, by simpa using h1.length_eq, fun hs => ?_, h2, h3⟩
    subst hs
    exact ⟨by simpa using h1, by simpa using h1.length_eq⟩
  · refine enabled_of_not_returned E gt _ hI ?_ hm
    intro habs
    have := (exec_report_absent E gt sched (startProgram true sent)).2 habs
    simp [startProgram] at this
  · have := stepsTaken_le_fuel E gt sched (startProgram true sent)
    have hf : fuel gt (startProgram true sent) =
        5 * gt.images.length + 2 * sent.length + 17 := by
      simp [fuel, startProgram, mainRank, loopRank, reportRank]
      omega
    omega

/-- Instance of the amended C1 on the example collaborators. The program of `verboseOps`
under `verboseSchedule`: `Run` returns and the log holds the rejection sent by `Add` and
the success of the one admitted item. The program that adds one local and one remote image
with `AddImg` and `AddUrl`, where admission sends nothing, under `mixedSchedule`: `Run`
returns with exactly two lines logged. Before the first step, some goroutine can move. -/
theorem Run_reports_admission_sends_and_each_item_once_witness :
    ((exec skipEnv (build skipEnv "out" 400 0 0 verboseOps) verboseSchedule
        (startProgram true (buildSends skipEnv "out" 400 0 0 verboseOps))).main
        = .returned ∧
      (exec skipEnv (build skipEnv "out" 400 0 0 verboseOps) verboseSchedule
        (startProgram true (buildSends skipEnv "out" 400 0 0 verboseOps))).log.Perm
        [LogLine.fail (some "name excluded"), LogLine.ok ⟨"out/keep.png", 400, 0⟩]) ∧
    (buildSends skipEnv "out" 400 0 0 [.AddImg "a.png", .AddUrl "http://x/b.png"] = [] ∧
      (exec skipEnv (build skipEnv "out" 400 0 0 [.AddImg "a.png", .AddUrl "http://x/b.png"])
        mixedSchedule (startProgram true (buildSends skipEnv "out" 400 0 0
          [.AddImg "a.png", .AddUrl "http://x/b.png"]))).log.length = 2) ∧
    (∃ a, (step skipEnv (build skipEnv "out" 400 0 0 verboseOps) a
      (exec skipEnv (build skipEnv "out" 400 0 0 verboseOps) []
        (startProgram true (buildSends skipEnv "out" 400 0 0 verboseOps)))).isSome
      = true) :=
  ⟨⟨by decide,
    ((Run_reports_admission_sends_and_each_item_once skipEnv "out" 400 0 0 verboseOps
      verboseSchedule).2.1 (by decide)).1⟩,
   ⟨by decide,
    ((((Run_reports_admission_sends_and_each_item_once skipEnv "out" 400 0 0
      [.AddImg "a.png", .AddUrl "http://x/b.png"] mixedSchedule).2.1
        (by decide)).2.2.1) (by decide)).2⟩,
   (Run_reports_admission_sends_and_each_item_once skipEnv "out" 400 0 0 verboseOps
      []).2.2.1 (by decide)⟩

/-- C6: for a task made by `NewTask(dst, w, h, interp)` and any calls on it, under every
schedule, with or without a reporter and whatever admission sent, every success line logged by a run records the
width `w` and the height `h` given to `NewTask`, and its path is the one returned by a
successful `ResizeTo(dst, w, h, interp, 0)` of one of the task's images. Nothing of what
the transform produced other than the path enters the record. -/
theorem Run_success_records_requested_size (E : Env F) (dst : String) (w h interp : Nat)
    (ops : List (Op F)) (reporter : Bool) (sent : List GoError) (sched : List Action)
    (rs : saveRs)
    (hrs : LogLine.ok rs ∈
      (exec E (build E dst w h interp ops) sched (startProgram reporter sent)).log) :
    rs.w = w ∧ rs.h = h ∧
      ∃ img ∈ (build E dst w h interp ops).images,
        E.ResizeTo img dst w h interp 0 = (rs.save, none) := by
  have hI := exec_inv E (build E dst w h interp ops) sched (startProgram reporter sent)
    (Inv_startProgram E _ reporter sent)
  obtain ⟨hd, hw, hh, hi, hq⟩ := build_params E dst w h interp ops
  have hmem0 := hI.log.subset
    (List.mem_append_left _ (List.mem_append_left _ hrs))
  have hmem : LogLine.ok rs ∈ (exec E (build E dst w h interp ops) sched
      (startProgram reporter sent)).workers.filterMap
        (delivered E (build E dst w h interp ops)) := by
    rcases List.mem_append.1 hmem0 with hm | hm
    · simp at hm
    · exact hm
  obtain ⟨⟨img, pc⟩, hwk, hdel⟩ := List.mem_filterMap.1 hmem
  have himg := worker_image_mem E _ _ hI _ hwk
  have hout : outcome E (build E dst w h interp ops) img = LogLine.ok rs := by
    cases pc <;> simp_all [delivered]
  unfold outcome at hout
  rw [hd, hw, hh, hi, hq] at hout
  split at hout
  · cases hout
  · next save hr =>
    cases hout
    exact ⟨rfl, rfl, img, himg, hr⟩

/-- Instance of C6: the success line of the full run of the task
`NewTask("out", 400, 0, 0)` after `AddImg("a.png")` and `AddUrl("http://x/b.png")`. -/
theorem Run_success_records_requested_size_witness :
    (⟨"out/a.png", 400, 0⟩ : saveRs).w = 400 ∧ (⟨"out/a.png", 400, 0⟩ : saveRs).h = 0 ∧
      ∃ img ∈ (build skipEnv "out" 400 0 0 [.AddImg "a.png", .AddUrl "http://x/b.png"]).images,
        skipEnv.ResizeTo img "out" 400 0 0 0 = ("out/a.png", none) :=
  Run_success_records_requested_size skipEnv "out" 400 0 0
    [.AddImg "a.png", .AddUrl "http://x/b.png"] true [] mixedSchedule
    ⟨"out/a.png", 400, 0⟩ (by decide)

/-- C7, what the code does: when nobody has called `Report` (as in the repository's test,
which only calls `NewTask`, `AddUrl`, `AddImg` and `Run`), `Run` never returns, for any
task, with or without images, whatever admission has to send and under every schedule. A
task without images, when admission sends nothing, is stuck in `<-gt.fin` after the call
of `Run` and four steps of it, no goroutine being able to move. When admission has a value
to send, the client is stuck in that send before it calls `Run`. -/
theorem Run_without_reporter_never_returns (E : Env F) (gt : Task F)
    (sent : List GoError) (sched : List Action) :
    (exec E gt sched (startProgram false sent)).main ≠ .returned ∧
    (gt.images = [] →
      (exec E gt [.main, .main, .main, .main, .main] (startProgram false [])).main
        = .recvFin ∧
      ∀ a, step E gt a
        (exec E gt [.main, .main, .main, .main, .main] (startProgram false [])) = none) ∧
    (sent ≠ [] → ∀ a, step E gt a (startProgram false sent) = none) := by
  refine ⟨fun hm => ?_, fun hnil => ?_, fun hne a => ?_⟩
  · have hI := exec_inv E gt sched (startProgram false sent)
      (Inv_startProgram E gt false sent)
    have habs := (exec_report_absent E gt sched (startProgram false sent)).1 rfl
    have hM := hI.main
    simp only [mainInv, hm] at hM
    rw [habs] at hM
    simp at hM
  · have hs : exec E gt [.main, .main, .main, .main, .main] (startProgram false []) =
        { startProgram false [] with main := .recvFin, chErrClosed := true,
                                     chSaveClosed := true } := by
      simp [exec, step, stepMain, startProgram, hnil]
    rw [hs]
    refine ⟨rfl, fun a => ?_⟩
    cases a <;>
      simp [step, stepMain, stepWorker, stepSaveLoop, stepErrLoop, stepReport,
        startProgram]
  · cases sent with
    | nil => exact absurd rfl hne
    | cons err rest =>
      cases a <;>
        simp [step, stepMain, stepWorker, stepSaveLoop, stepErrLoop, stepReport,
          startProgram]

/-- Instance of C7. On the task of the repository's test, without a reporter, after
`testSchedule` the call of `Run` has not returned: it stands in `wg.Wait()` with the
counter at 4, and each of the four workers is blocked in its send. On a task without
images, `Run` is stuck in `<-gt.fin` and no goroutine can move. With a rejection to send,
the verbose client of `verboseOps` cannot move at all. -/
theorem Run_without_reporter_never_returns_witness :
    ((exec skipEnv testTask testSchedule (startProgram false [])).main ≠ .returned ∧
      (exec skipEnv testTask testSchedule (startProgram false [])).main = .wait ∧
      (exec skipEnv testTask testSchedule (startProgram false [])).wg = 4 ∧
      (exec skipEnv testTask testSchedule (startProgram false [])).workers.map Prod.snd =
        [.sendErr (some "fetch failed"), .sendErr (some "fetch failed"),
         .sendErr (some "fetch failed"),
         .sendSave ⟨"tmp/goimgrz/./testdata/IMG_2489.JPG", 400, 0⟩] ∧
      (exec skipEnv testTask testSchedule (startProgram false [])).errLoop = .idle ∧
      (exec skipEnv testTask testSchedule (startProgram false [])).saveLoop = .idle) ∧
    ((exec skipEnv (NewTask "tmp/goimgrz" 400 0 0) [.main, .main, .main, .main, .main]
      (startProgram false [])).main = .recvFin ∧
    ∀ a, step skipEnv (NewTask "tmp/goimgrz" 400 0 0) a
      (exec skipEnv (NewTask "tmp/goimgrz" 400 0 0) [.main, .main, .main, .main, .main]
        (startProgram false [])) = none) ∧
    (∀ a, step skipEnv verboseTask a (startProgram false verboseSent) = none) :=
  ⟨⟨(Run_without_reporter_never_returns skipEnv testTask [] testSchedule).1,
     by decide, by decide, by decide, by decide, by decide⟩,
   (Run_without_reporter_never_returns skipEnv (NewTask "tmp/goimgrz" 400 0 0) []
      []).2.1 rfl,
   (Run_without_reporter_never_returns skipEnv verboseTask verboseSent []).2.2
      (by decide)⟩

/-- C3: `Add` appends the image if and only if the name check and the size check both
accept it. When both accept, the task afterwards is the old one with the image appended to
the admitted sequence. When one rejects, the task is unchanged, and a run of it starts no
worker for the image unless the image was already admitted before. -/
theorem Add_appends_iff_both_accept (E : Env F) (gt : Task F) (image : Image) :
    ((E.DetectName gt.filter image).1 = true ∧ (E.DetectSize gt.filter image).1 = true →
      (Task.Add E gt image).1 = { gt with images := gt.images ++ [image] }) ∧
    (¬ ((E.DetectName gt.filter image).1 = true ∧ (E.DetectSize gt.filter image).1 = true) →
      (Task.Add E gt image).1 = gt ∧
      (image ∉ gt.images →
        ∀ (reporter : Bool) (sent : List GoError) (sched : List Action),
        ∀ w ∈ (exec E (Task.Add E gt image).1 sched
            (startProgram reporter sent)).workers,
          w.1 ≠ image)) := by
  refine ⟨fun h => ?_, fun h => ?_⟩
  · unfold Task.Add
    split
    · next h0 => simp [h0] at h
    · split
      · next h1 => simp [h1] at h
      · rfl
  · have hrej : (Task.Add E gt image).1 = gt :=
      Add_rejected E gt image (by simpa [accepts] using h)
    refine ⟨hrej, fun hni reporter sent sched w hw heq => ?_⟩
    rw [hrej] at hw
    have := worker_image_mem E gt _
      (exec_inv E gt sched (startProgram reporter sent)
        (Inv_startProgram E gt reporter sent)) w hw
    exact hni (heq ▸ this)

/-- Instance of C3 on the example collaborators: an accepted and a rejected image. -/
theorem Add_appends_iff_both_accept_witness :
    (Task.Add skipEnv skipTask (.LocImage "keep.png")).1 =
      { skipTask with images := skipTask.images ++ [.LocImage "keep.png"] } ∧
    (Task.Add skipEnv skipTask (.LocImage "skip_me.png")).1 = skipTask :=
  ⟨(Add_appends_iff_both_accept skipEnv skipTask (.LocImage "keep.png")).1
      ⟨by decide, by decide⟩,
   ((Add_appends_iff_both_accept skipEnv skipTask (.LocImage "skip_me.png")).2
      (by decide)).1⟩

/-- C2, what the code does: `AddImg` and `AddUrl` append without asking the filter. With
the filter that rejects names containing "skip", `AddImg("skip_me.png")` followed by
`AddImg("keep.png")` leaves both images in the admitted sequence, and `AddUrl` admits a
remote image that both checks reject, whereas `AddImgs("skip_me.png,keep.png")`, which
goes through `Add`, leaves only "keep.png". -/
theorem AddImg_AddUrl_bypass_filter :
    (skipEnv.DetectName skipTask.filter (.LocImage "skip_me.png")).1 = false ∧
    (Task.AddImg (Task.AddImg skipTask "skip_me.png").1 "keep.png").1.images =
      [Image.LocImage "skip_me.png", Image.LocImage "keep.png"] ∧
    (skipEnv.DetectName skipTask.filter (.HttpImage "http://x/skip_me.png")).1 = false ∧
    (skipEnv.DetectSize skipTask.filter (.HttpImage "http://x/skip_me.png")).1 = false ∧
    (Task.AddUrl skipTask "http://x/skip_me.png").1.images =
      [Image.HttpImage "http://x/skip_me.png"] ∧
    (Task.AddImgs skipEnv skipTask "skip_me.png,keep.png").1.images =
      [Image.LocImage "keep.png"] := by
  decide


end Goimgrz
